import Mathlib

/-!
Verification of the student roster manager's data-synchronization and
validation core.  The definitions below are a shallow embedding of the
TypeScript source: `Student`, `Course`, `FormData` and `FormErrors` mirror
`src/types`, the validation functions mirror `StudentForm.tsx` and
`utils/api.ts`, the search filter mirrors `StudentList.tsx`, storage mirrors
`utils/storage.ts`, and the application-level state machine mirrors the
`App` component together with the `useStudents` / `useCourses` hooks.
-/

/-- The `Student` record, from `src/types` (all fields are strings). -/
structure Student where
  id : String
  name : String
  email : String
  enrolledCourse : String
  profileImage : String
  dateEnrolled : String
deriving Repr, DecidableEq

/-- The `Course` type from `src/types`: numeric id plus display name. -/
structure Course where
  id : Nat
  name : String
deriving Repr, DecidableEq

/-- The controlled form state of `StudentForm` (`formData`). -/
structure FormData where
  name : String
  email : String
  enrolledCourse : String
  profileImage : String
deriving Repr, DecidableEq

/-- The `FormErrors` type from `src/types`: an optional message per validated field. -/
structure FormErrors where
  name : Option String
  email : Option String
  enrolledCourse : Option String
deriving Repr, DecidableEq

/-- JavaScript's `a || b` on strings: the empty string is the only falsy
string, so `"" || b = b` and any non-empty `a` short-circuits to itself. -/
def jsOr (a b : String) : String :=
  if a = "" then b else a

/-- Whitespace test used by `trim`. -/
def isWs (c : Char) : Bool := c.isWhitespace

/-- JavaScript's `String.prototype.trim`: strip whitespace from both ends. -/
def jsTrim (s : String) : String :=
  ⟨((s.data.dropWhile isWs).reverse.dropWhile isWs).reverse⟩

/-- JavaScript's `String.prototype.toLowerCase`, character by character. -/
def jsToLower (s : String) : String :=
  ⟨s.data.map Char.toLower⟩

/-- Character class `[^\s@]` of the email regex in `src/utils/api.ts`:
neither whitespace nor `@`. -/
def isEmailChar (c : Char) : Bool := !c.isWhitespace && c != '@'

/-- Does the list split as `p ++ '.' :: c` with `c` non-empty?  This is the
search for the literal dot of `[^\s@]+\.[^\s@]+` with a non-empty tail. -/
def dotSplit : List Char → Bool
  | [] => false
  | x :: rest => (x == '.' && !rest.isEmpty) || dotSplit rest

/-- Does the list match `[^\s@]+\.[^\s@]+` positionally, ignoring the
character-class tests (those are checked separately): i.e. does it split as
`b ++ '.' :: c` with `b` and `c` non-empty? -/
def tailMatch : List Char → Bool
  | [] => false
  | _ :: rest => dotSplit rest

/-- Function `validateEmail` from `src/utils/api.ts`: test against the anchored regex
`^[^\s@]+@[^\s@]+\.[^\s@]+$`.  The part before the first `@` must be a
non-empty run of `[^\s@]` characters; the remainder must consist of `[^\s@]`
characters and split as `domain ++ '.' ++ tld` with both sides non-empty. -/
def validateEmail (email : String) : Bool :=
  let cs := email.data
  let a := cs.takeWhile (fun c => c != '@')
  match cs.dropWhile (fun c => c != '@') with
  | '@' :: rest => !a.isEmpty && a.all isEmailChar && rest.all isEmailChar && tailMatch rest
  | _ => false

/-- The email rules of `validateForm` in `StudentForm.tsx` (lines 77-82):
"required" when empty after trimming, else "invalid format" when the raw
value fails `validateEmail`. -/
def emailError (email : String) : Option String :=
  if jsTrim email = "" then some "Email is required"
  else if !(validateEmail email) then some "Please enter a valid email address"
  else none

/-- The name rules of `validateForm` (lines 70-75). -/
def nameError (name : String) : Option String :=
  if jsTrim name = "" then some "Name is required"
  else if (jsTrim name).length < 2 then some "Name must be at least 2 characters"
  else none

/-- The course rule of `validateForm` (lines 84-87): flagged exactly when the
value is the (falsy) empty string; no trimming, no directory membership. -/
def courseError (course : String) : Option String :=
  if course = "" then some "Please select a course" else none

/-- Function `validateForm` from `StudentForm.tsx`: all three field checks run on
every call and the error object is rebuilt wholesale. -/
def validateForm (fd : FormData) : FormErrors :=
  { name := nameError fd.name
    email := emailError fd.email
    enrolledCourse := courseError fd.enrolledCourse }

/-- Validity test `Object.keys(newErrors).length === 0`: no field carries an error. -/
def isValid (e : FormErrors) : Bool :=
  e.name.isNone && e.email.isNone && e.enrolledCourse.isNone

/-- Mock course list from `src/utils/api.ts`. -/
def mockCourses : List Course :=
  [⟨1, "HTML Basics"⟩, ⟨2, "CSS Mastery"⟩, ⟨3, "JavaScript Pro"⟩,
   ⟨4, "React In Depth"⟩, ⟨5, "Node.js Backend"⟩, ⟨6, "Python Fundamentals"⟩,
   ⟨7, "Database Design"⟩, ⟨8, "UI/UX Design"⟩]

/-- The `studentData` object built by `handleSubmit` (`StudentForm.tsx` lines
130-137).  `editing` is the `student` prop (`some` when editing, `none` when
adding); `now` stands for `new Date().toISOString()`, `freshId` for
`generateId()` and `freshImage` for the random placeholder URL, all of which
are environment-supplied values.  The `||` fallbacks are JavaScript falsy
checks, so an empty-string `id` or `dateEnrolled` also triggers them. -/
def buildStudentData (editing : Option Student) (fd : FormData)
    (now freshId freshImage : String) : Student :=
  { id := jsOr ((editing.map Student.id).getD "") freshId
    name := jsTrim fd.name
    email := jsToLower (jsTrim fd.email)
    enrolledCourse := fd.enrolledCourse
    profileImage := jsOr fd.profileImage freshImage
    dateEnrolled := jsOr ((editing.map Student.dateEnrolled).getD "") now }

/-- Function `addStudent` from `useStudents` (`setStudents(prev => [...prev, student])`). -/
def addStudent (student : Student) (prev : List Student) : List Student :=
  prev ++ [student]

/-- Function `updateStudent` from `useStudents`: order-preserving replacement of every
record whose id equals the draft's id; a pure map with no failure path. -/
def updateStudent (updated : Student) (prev : List Student) : List Student :=
  prev.map fun s => if s.id = updated.id then updated else s

/-- Modelled from the spec: §4.4's `updateRecord` contract, whose failure
behaviour ("Fails with \"not found\" if no record with that id exists") has
no counterpart in the source.  Stated here only to compare against the
source-derived `updateStudent`. -/
def updateRecordSpec (draft : Student) (records : List Student) :
    Except String (List Student) :=
  if records.any fun s => s.id = draft.id then
    Except.ok (records.map fun s => if s.id = draft.id then draft else s)
  else Except.error "not found"

/-- JavaScript's `String.prototype.includes`: contiguous substring test. -/
def jsIncludes (hay needle : String) : Bool :=
  needlePrefixAt needle.data hay.data
where
  /-- Does `n` occur at the start of some suffix of `h`? -/
  needlePrefixAt (n : List Char) : List Char → Bool
    | [] => n.isEmpty
    | h@(_ :: t) => n.isPrefixOf h || needlePrefixAt n t

/-- The per-record match test of `filteredStudents` (`StudentList.tsx` lines
34-38): case-insensitive substring match on name, email or enrolled course. -/
def studentMatches (term : String) (s : Student) : Bool :=
  jsIncludes (jsToLower s.name) (jsToLower term) ||
  jsIncludes (jsToLower s.email) (jsToLower term) ||
  jsIncludes (jsToLower s.enrolledCourse) (jsToLower term)

/-- Function `filteredStudents` from `StudentList.tsx` (lines 28-39): a blank search
term returns the list untouched, otherwise `Array.prototype.filter`. -/
def filteredStudents (searchTerm : String) (students : List Student) :
    List Student :=
  if jsTrim searchTerm = "" then students
  else students.filter (studentMatches searchTerm)

/-- JSON string escaping as used on the fields the app serializes: quote and
backslash are escaped with a backslash, every other character is literal. -/
def escapeChars : List Char → List Char
  | [] => []
  | c :: rest => (if c = '"' ∨ c = '\\' then ['\\', c] else [c]) ++ escapeChars rest

/-- Serialize one string field, surrounding quotes included. -/
def quoteStr (s : String) : List Char :=
  '"' :: (escapeChars s.data ++ ['"'])

/-- Serialized object-key fragments, in object-literal order. -/
def keyId : List Char := "\x7b\"id\":".data

/-- Fragment before the name field. -/
def keyName : List Char := ",\"name\":".data

/-- Fragment before the email field. -/
def keyEmail : List Char := ",\"email\":".data

/-- Fragment before the enrolled-course field. -/
def keyCourse : List Char := ",\"enrolledCourse\":".data

/-- Fragment before the profile-image field. -/
def keyImage : List Char := ",\"profileImage\":".data

/-- Fragment before the enrollment-date field. -/
def keyDate : List Char := ",\"dateEnrolled\":".data

/-- Closing brace of a serialized record. -/
def keyClose : List Char := "\x7d".data

/-- Serialization `JSON.stringify` of one `Student`: object-literal key order. -/
def stringifyStudent (s : Student) : List Char :=
  keyId ++ quoteStr s.id ++
  keyName ++ quoteStr s.name ++
  keyEmail ++ quoteStr s.email ++
  keyCourse ++ quoteStr s.enrolledCourse ++
  keyImage ++ quoteStr s.profileImage ++
  keyDate ++ quoteStr s.dateEnrolled ++ keyClose

/-- Comma-separated serialization of the records of a collection. -/
def stringifyItems : List Student → List Char
  | [] => []
  | [s] => stringifyStudent s
  | s :: rest => stringifyStudent s ++ ',' :: stringifyItems rest

/-- Serialization `JSON.stringify` of a whole collection: the persisted blob format. -/
def stringifyStudents (l : List Student) : String :=
  ⟨'[' :: (stringifyItems l ++ [']'])⟩

/-- Consume an expected leading literal, returning the remaining input. -/
def parseLit : List Char → List Char → Option (List Char)
  | [], cs => some cs
  | _ :: _, [] => none
  | p :: ps, c :: cs => if c = p then parseLit ps cs else none

/-- Parse the body of a JSON string up to and including its closing quote,
undoing `escapeChars`; fails on a dangling backslash or an unknown escape. -/
def parseStringBody : List Char → Option (List Char × List Char)
  | [] => none
  | c :: rest =>
    if c = '"' then some ([], rest)
    else if c = '\\' then
      match rest with
      | [] => none
      | d :: rest' =>
        if d = '"' ∨ d = '\\' then
          match parseStringBody rest' with
          | some (s, r) => some (d :: s, r)
          | none => none
        else none
    else
      match parseStringBody rest with
      | some (s, r) => some (c :: s, r)
      | none => none

/-- Parse a quoted JSON string. -/
def parseJStr (cs : List Char) : Option (String × List Char) :=
  match cs with
  | '"' :: rest =>
    match parseStringBody rest with
    | some (s, r) => some (⟨s⟩, r)
    | none => none
  | _ => none

/-- Parse one serialized `Student` object. -/
def parseStudent (cs : List Char) : Option (Student × List Char) :=
  (parseLit keyId cs).bind fun cs =>
  (parseJStr cs).bind fun (id, cs) =>
  (parseLit keyName cs).bind fun cs =>
  (parseJStr cs).bind fun (name, cs) =>
  (parseLit keyEmail cs).bind fun cs =>
  (parseJStr cs).bind fun (email, cs) =>
  (parseLit keyCourse cs).bind fun cs =>
  (parseJStr cs).bind fun (course, cs) =>
  (parseLit keyImage cs).bind fun cs =>
  (parseJStr cs).bind fun (image, cs) =>
  (parseLit keyDate cs).bind fun cs =>
  (parseJStr cs).bind fun (date, cs) =>
  (parseLit keyClose cs).bind fun cs =>
  some (⟨id, name, email, course, image, date⟩, cs)

/-- Parse a non-empty comma-separated record sequence up to the closing
bracket; `fuel` bounds the recursion depth. -/
def parseItems : Nat → List Char → Option (List Student × List Char)
  | 0, _ => none
  | fuel + 1, cs =>
    match parseStudent cs with
    | none => none
    | some (s, rest) =>
      match rest with
      | ']' :: r => some ([s], r)
      | ',' :: r =>
        match parseItems fuel r with
        | some (ss, r') => some (s :: ss, r')
        | none => none
      | _ => none

/-- Record-level deserializer for the round-trip property: reads back
exactly the blobs `stringifyStudents` emits, `none` on anything else.  This
is stricter than the platform `JSON.parse` (modelled by `jsonParse` below),
which succeeds on any well-formed JSON regardless of shape. -/
def parseStudents (str : String) : Option (List Student) :=
  match str.data with
  | '[' :: cs =>
    if cs = [']'] then some []
    else (parseItems cs.length cs).bind fun (ss, r) =>
      if r = [] then some ss else none
  | _ => none

/-- Record-level view of the load path of `src/utils/storage.ts`, used for
the save-then-load round trip: exact on blobs produced by `saveStudents`.
The source itself returns the `JSON.parse` result unvalidated, which
`getStoredStudentsJS` below models faithfully for arbitrary blobs. -/
def getStoredStudents (blob : Option String) : List Student :=
  match blob with
  | none => []
  | some s => (parseStudents s).getD []

/-- Function `saveStudents` from `src/utils/storage.ts`: overwrite the blob with the
serialized collection (the success path of `localStorage.setItem`). -/
def saveStudents (students : List Student) (_blob : Option String) :
    Option String :=
  some (stringifyStudents students)

/-- Runtime JSON values, as produced by `JSON.parse`: null, booleans,
numbers (kept as their source lexeme, since the program never computes with
them), strings, arrays and objects. -/
inductive JSValue where
  | null
  | bool (b : Bool)
  | num (lexeme : List Char)
  | str (s : String)
  | arr (elems : List JSValue)
  | obj (fields : List (String × JSValue))

/-- Whitespace accepted between JSON tokens. -/
def jsonSkipWs (cs : List Char) : List Char :=
  cs.dropWhile fun c => c == ' ' || c == '\n' || c == '\t' || c == '\r'

/-- Single-character JSON escapes. -/
def jsonUnescape (d : Char) : Option Char :=
  if d = '"' then some '"'
  else if d = '\\' then some '\\'
  else if d = '/' then some '/'
  else if d = 'n' then some '\n'
  else if d = 't' then some '\t'
  else if d = 'r' then some '\r'
  else if d = 'b' then some (Char.ofNat 8)
  else if d = 'f' then some (Char.ofNat 12)
  else none

/-- Value of a hexadecimal digit. -/
def hexVal (c : Char) : Option Nat :=
  if '0' ≤ c ∧ c ≤ '9' then some (c.toNat - '0'.toNat)
  else if 'a' ≤ c ∧ c ≤ 'f' then some (c.toNat - 'a'.toNat + 10)
  else if 'A' ≤ c ∧ c ≤ 'F' then some (c.toNat - 'A'.toNat + 10)
  else none

/-- Body of a JSON string after the opening quote: handles the named
escapes and 4-digit unicode escapes, rejects raw control characters and
dangling backslashes. -/
def jsonStringBody : List Char → Option (List Char × List Char)
  | [] => none
  | c :: rest =>
    if c = '"' then some ([], rest)
    else if c = '\\' then
      match rest with
      | [] => none
      | 'u' :: h1 :: h2 :: h3 :: h4 :: rest' =>
        match hexVal h1, hexVal h2, hexVal h3, hexVal h4 with
        | some a, some b, some c', some d' =>
          match jsonStringBody rest' with
          | some (s, r) => some (Char.ofNat (((a * 16 + b) * 16 + c') * 16 + d') :: s, r)
          | none => none
        | _, _, _, _ => none
      | d :: rest' =>
        match jsonUnescape d with
        | some e =>
          match jsonStringBody rest' with
          | some (s, r) => some (e :: s, r)
          | none => none
        | none => none
    else if c.toNat < 32 then none
    else
      match jsonStringBody rest with
      | some (s, r) => some (c :: s, r)
      | none => none

/-- One or more decimal digits. -/
def jsonDigits (cs : List Char) : Option (List Char × List Char) :=
  let d := cs.takeWhile Char.isDigit
  if d.isEmpty then none else some (d, cs.dropWhile Char.isDigit)

/-- Integer part of a JSON number: a lone zero or a nonzero-led digit run. -/
def jsonIntPart : List Char → Option (List Char × List Char)
  | '0' :: d :: rest => if d.isDigit then none else some (['0'], d :: rest)
  | ['0'] => some (['0'], [])
  | cs => jsonDigits cs

/-- Optional fractional part. -/
def jsonFrac : List Char → Option (List Char × List Char)
  | '.' :: rest =>
    match jsonDigits rest with
    | some (d, r) => some ('.' :: d, r)
    | none => none
  | cs => some ([], cs)

/-- Optional exponent part. -/
def jsonExp : List Char → Option (List Char × List Char)
  | [] => some ([], [])
  | c :: rest =>
    if c = 'e' ∨ c = 'E' then
      match rest with
      | [] => none
      | s :: rest' =>
        if s = '+' ∨ s = '-' then
          match jsonDigits rest' with
          | some (d, r) => some (c :: s :: d, r)
          | none => none
        else
          match jsonDigits rest with
          | some (d, r) => some (c :: d, r)
          | none => none
    else some ([], c :: rest)

/-- Fraction and exponent following an integer part. -/
def jsonNumTail (lead : List Char) (r : List Char) : Option (List Char × List Char) :=
  match jsonFrac r with
  | some (f, r1) =>
    match jsonExp r1 with
    | some (e, r2) => some (lead ++ f ++ e, r2)
    | none => none
  | none => none

/-- A JSON number lexeme, optional leading minus included. -/
def jsonNum : List Char → Option (List Char × List Char)
  | '-' :: rest =>
    match jsonIntPart rest with
    | some (i, r) => jsonNumTail ('-' :: i) r
    | none => none
  | cs =>
    match jsonIntPart cs with
    | some (i, r) => jsonNumTail i r
    | none => none

mutual

/-- One JSON value: the grammar of `JSON.parse`, with no shape assumptions.
The fuel bounds recursion depth and is amply provisioned by the caller. -/
def jsonVal : Nat → List Char → Option (JSValue × List Char)
  | 0, _ => none
  | fuel + 1, cs =>
    match jsonSkipWs cs with
    | [] => none
    | c :: rest =>
      if c = '"' then
        match jsonStringBody rest with
        | some (s, r) => some (JSValue.str ⟨s⟩, r)
        | none => none
      else if c = '[' then
        match jsonSkipWs rest with
        | ']' :: r => some (JSValue.arr [], r)
        | cs1 =>
          match jsonElems fuel cs1 with
          | some (vs, r) => some (JSValue.arr vs, r)
          | none => none
      else if c = '\x7b' then
        match jsonSkipWs rest with
        | '\x7d' :: r => some (JSValue.obj [], r)
        | cs1 =>
          match jsonMembers fuel cs1 with
          | some (ms, r) => some (JSValue.obj ms, r)
          | none => none
      else if c = 't' then
        match parseLit "rue".data rest with
        | some r => some (JSValue.bool true, r)
        | none => none
      else if c = 'f' then
        match parseLit "alse".data rest with
        | some r => some (JSValue.bool false, r)
        | none => none
      else if c = 'n' then
        match parseLit "ull".data rest with
        | some r => some (JSValue.null, r)
        | none => none
      else
        match jsonNum (c :: rest) with
        | some (lex, r) => some (JSValue.num lex, r)
        | none => none

/-- Non-empty comma-separated array elements up to the closing bracket. -/
def jsonElems : Nat → List Char → Option (List JSValue × List Char)
  | 0, _ => none
  | fuel + 1, cs =>
    match jsonVal fuel cs with
    | none => none
    | some (v, r) =>
      match jsonSkipWs r with
      | ',' :: r' =>
        match jsonElems fuel r' with
        | some (vs, r'') => some (v :: vs, r'')
        | none => none
      | ']' :: r' => some ([v], r')
      | _ => none

/-- Non-empty comma-separated object members up to the closing brace. -/
def jsonMembers : Nat → List Char → Option (List (String × JSValue) × List Char)
  | 0, _ => none
  | fuel + 1, cs =>
    match jsonSkipWs cs with
    | '"' :: rest =>
      match jsonStringBody rest with
      | none => none
      | some (k, r) =>
        match jsonSkipWs r with
        | ':' :: r' =>
          match jsonVal fuel r' with
          | none => none
          | some (v, r'') =>
            match jsonSkipWs r'' with
            | ',' :: r3 =>
              match jsonMembers fuel r3 with
              | some (ms, r4) => some ((⟨k⟩, v) :: ms, r4)
              | none => none
            | '\x7d' :: r3 => some ([(⟨k⟩, v)], r3)
            | _ => none
        | _ => none
    | _ => none

end

/-- The platform `JSON.parse`: succeeds on exactly the well-formed JSON
texts (up to trailing whitespace), with no validation of the value's shape;
`none` models the exception path. -/
def jsonParse (s : String) : Option JSValue :=
  match jsonVal (2 * s.data.length + 2) s.data with
  | some (v, rest) => if jsonSkipWs rest = [] then some v else none
  | none => none

/-- Function `getStoredStudents` from `src/utils/storage.ts` at the JSON
value level, faithful to `return stored ? JSON.parse(stored) : []`: the
parse result is returned unvalidated (the `Student[]` annotation is only a
compile-time cast), so only an absent blob or a `JSON.parse` exception
yields the empty array. -/
def getStoredStudentsJS (blob : Option String) : JSValue :=
  match blob with
  | none => JSValue.arr []
  | some s => (jsonParse s).getD (JSValue.arr [])

/-- Is the value a JSON string? -/
def isStringValue : JSValue → Bool
  | JSValue.str _ => true
  | _ => false

/-- Is the value an object of the `Student` shape (the six string fields of
`src/types`, in declaration order)? -/
def isStudentValue : JSValue → Bool
  | JSValue.obj fields =>
    (fields.map Prod.fst ==
      ["id", "name", "email", "enrolledCourse", "profileImage", "dateEnrolled"]) &&
    fields.all fun f => isStringValue f.2
  | _ => false

/-- Is the value a sequence of `Student`-shaped records? -/
def isStudentArray : JSValue → Bool
  | JSValue.arr vs => vs.all isStudentValue
  | _ => false

/-- Observable outcome of a form submission: the error set shown to the
user, the in-memory collection and the persisted blob. -/
structure SubmitOutcome where
  errors : FormErrors
  students : List Student
  blob : Option String
deriving Repr, DecidableEq

/-- The submit pipeline: `handleSubmit` (`StudentForm.tsx` lines 117-145)
followed by `handleFormSubmit` in `App`, `addStudent`/`updateStudent` in
`useStudents` and the persistence effect.  On validation failure
`handleSubmit` returns before building `studentData`: nothing is mutated. -/
def handleSubmitModel (editing : Option Student) (fd : FormData)
    (now freshId freshImage : String) (students : List Student)
    (blob : Option String) : SubmitOutcome :=
  let errs := validateForm fd
  if isValid errs then
    let sd := buildStudentData editing fd now freshId freshImage
    let students' :=
      match editing with
      | none => addStudent sd students
      | some _ => updateStudent sd students
    ⟨errs, students', saveStudents students' blob⟩
  else ⟨errs, students, blob⟩

/-- The `useCourses` state machine: `Loading → Ready | Failed`, with retry
re-entering `Loading`.  (`Idle` is unobservable: the fetch starts on mount.) -/
inductive CoursesState where
  | loading
  | ready (courses : List Course)
  | failed (msg : String)
deriving Repr, DecidableEq

/-- Course names offered by the select list: none while loading or failed
(`useCourses` resets `courses` to `[]` on error). -/
def courseNames : CoursesState → List String
  | .ready cs => cs.map Course.name
  | _ => []

/-- The slice of `App` state that the directory-gating argument needs. -/
structure AppState where
  students : List Student
  coursesState : CoursesState
  showForm : Bool
  editing : Option Student
  form : FormData
deriving Repr, DecidableEq

/-- Fresh form for add mode. -/
def initForm : FormData := ⟨"", "", "", ""⟩

/-- State after hydration: courses still loading, no form open. -/
def initState (stored : List Student) : AppState :=
  ⟨stored, .loading, false, none, initForm⟩

/-- The form state that `StudentForm` sets up when opened on an existing
record (its `useEffect` on the `student` prop). -/
def editFormOf (s : Student) : FormData :=
  ⟨s.name, s.email, s.enrolledCourse, s.profileImage⟩

/-- Effect of a submit in state `σ`: commit and close on valid input,
otherwise display errors and change nothing else. -/
def submitStep (σ : AppState) (now freshId freshImage : String) : AppState :=
  if isValid (validateForm σ.form) then
    let sd := buildStudentData σ.editing σ.form now freshId freshImage
    let students' :=
      match σ.editing with
      | none => addStudent sd σ.students
      | some _ => updateStudent sd σ.students
    { σ with students := students', showForm := false, editing := none }
  else σ

/-- One user or network event of the `App` component.  Guards come straight
from the UI: the Add button is disabled while the course fetch has failed,
the course select only offers the empty choice plus the fetched names, and
fetch resolution only happens from the loading state. -/
inductive Step : AppState → AppState → Prop where
  | fetchOk (σ : AppState) : σ.coursesState = .loading →
      Step σ { σ with coursesState := .ready mockCourses }
  | fetchFail (σ : AppState) (msg : String) : σ.coursesState = .loading →
      Step σ { σ with coursesState := .failed msg }
  | retryClick (σ : AppState) (msg : String) : σ.coursesState = .failed msg →
      Step σ { σ with coursesState := .loading }
  | clickAdd (σ : AppState) : (∀ msg, σ.coursesState ≠ .failed msg) →
      Step σ { σ with showForm := true, editing := none, form := initForm }
  | clickEdit (σ : AppState) (s : Student) : s ∈ σ.students →
      Step σ { σ with showForm := true, editing := some s, form := editFormOf s }
  | setName (σ : AppState) (v : String) : σ.showForm = true →
      Step σ { σ with form := { σ.form with name := v } }
  | setEmail (σ : AppState) (v : String) : σ.showForm = true →
      Step σ { σ with form := { σ.form with email := v } }
  | setImage (σ : AppState) (v : String) : σ.showForm = true →
      Step σ { σ with form := { σ.form with profileImage := v } }
  | setCourse (σ : AppState) (v : String) : σ.showForm = true →
      (v = "" ∨ v ∈ courseNames σ.coursesState) →
      Step σ { σ with form := { σ.form with enrolledCourse := v } }
  | cancel (σ : AppState) : σ.showForm = true →
      Step σ { σ with showForm := false, editing := none }
  | submit (σ : AppState) (now freshId freshImage : String) : σ.showForm = true →
      Step σ (submitStep σ now freshId freshImage)

/-- States reachable from some hydrated initial state. -/
inductive Reach : AppState → Prop where
  | base (stored : List Student) : Reach (initState stored)
  | step {σ σ' : AppState} : Reach σ → Step σ σ' → Reach σ'

/-- Sample record used when instantiating theorems on concrete inputs. -/
def sAnn : Student :=
  ⟨"s1", "Ann", "ann@example.com", "HTML Basics", "p1", "2024-01-01T00:00:00.000Z"⟩

/-- Second sample record (the spec's own `search("bob")` example). -/
def sBob : Student :=
  ⟨"s2", "Bob", "x@bob.com", "CSS Mastery", "p2", "2024-01-02T00:00:00.000Z"⟩

/-- A record whose enrollment date is the empty string, as can be hydrated
from a persisted blob (`getStoredStudents` applies no field validation). -/
def sBlankDate : Student := ⟨"s3", "Cay", "cay@x.co", "HTML Basics", "p3", ""⟩

/-- The `local@domain.tld` shape demanded by the spec (§4.2), stated
declaratively: a non-empty local part, the `@`, a non-empty domain, a
literal dot and a non-empty TLD segment, all made of characters that are
neither whitespace nor `@`. -/
def emailPattern (email : String) : Prop :=
  ∃ a b c : List Char, email.data = a ++ '@' :: (b ++ '.' :: c) ∧
    a ≠ [] ∧ b ≠ [] ∧ c ≠ [] ∧
    (∀ ch ∈ a, isEmailChar ch) ∧ (∀ ch ∈ b, isEmailChar ch) ∧
    (∀ ch ∈ c, isEmailChar ch)

example : validateEmail "a@b.com" = true := by decide
example : validateEmail "a@b" = false := by decide
example : validateEmail "ab.com" = false := by decide
example : validateEmail " a@b.com" = false := by decide
example : validateEmail "a@b.com " = false := by decide
example : validateEmail "a@b." = false := by decide
example : validateEmail "a@.com" = false := by decide
example : validateEmail "a@b@c.com" = false := by decide
example : validateEmail "a@b..c" = true := by decide
example : jsTrim "  hi  " = "hi" := by decide
example : jsOr "" "x" = "x" := by decide

theorem string_data_nil_iff (s : String) : s.data = [] ↔ s = "" := by
  cases s with
  | mk d =>
    constructor
    · intro h
      have h' : d = [] := h
      subst h'
      rfl
    · intro h; exact congrArg String.data h

theorem isEmailChar_not_ws {ch : Char} (h : isEmailChar ch = true) :
    ch.isWhitespace = false := by
  unfold isEmailChar at h
  have h1 := (Bool.and_eq_true _ _ |>.mp h).1
  simpa using h1

theorem isEmailChar_ne_at {ch : Char} (h : isEmailChar ch = true) :
    (ch != '@') = true := by
  unfold isEmailChar at h
  exact (Bool.and_eq_true _ _ |>.mp h).2

theorem dotSplit_iff (r : List Char) :
    dotSplit r = true ↔ ∃ p c, r = p ++ '.' :: c ∧ c ≠ [] := by
  induction r with
  | nil => simp [dotSplit]
  | cons x rest ih =>
    have hstep : dotSplit (x :: rest) = true ↔
        (x = '.' ∧ rest ≠ []) ∨ dotSplit rest = true := by
      simp [dotSplit]
    rw [hstep, ih]
    constructor
    · rintro (⟨hx, hr⟩ | ⟨p, c, hpc, hc⟩)
      · exact ⟨[], rest, by simp [hx], hr⟩
      · exact ⟨x :: p, c, by simp [hpc], hc⟩
    · rintro ⟨p, c, hpc, hc⟩
      cases p with
      | nil =>
        simp only [List.nil_append, List.cons.injEq] at hpc
        exact Or.inl ⟨hpc.1, hpc.2 ▸ hc⟩
      | cons y p' =>
        simp only [List.cons_append, List.cons.injEq] at hpc
        exact Or.inr ⟨p', c, hpc.2, hc⟩

theorem tailMatch_iff (r : List Char) :
    tailMatch r = true ↔ ∃ b c, r = b ++ '.' :: c ∧ b ≠ [] ∧ c ≠ [] := by
  cases r with
  | nil =>
    simp only [tailMatch]
    constructor
    · intro h; exact absurd h (by simp)
    · rintro ⟨b, c, hbc, hb, hc⟩
      exact absurd hbc.symm (by simp)
  | cons x rest =>
    rw [show tailMatch (x :: rest) = dotSplit rest from rfl, dotSplit_iff]
    constructor
    · rintro ⟨p, c, hpc, hc⟩
      exact ⟨x :: p, c, by simp [hpc], by simp, hc⟩
    · rintro ⟨b, c, hbc, hb, hc⟩
      cases b with
      | nil => exact absurd rfl hb
      | cons y b' =>
        simp only [List.cons_append, List.cons.injEq] at hbc
        exact ⟨b', c, hbc.2, hc⟩

theorem takeWhile_append_cons {p : Char → Bool} (a : List Char) (y : Char)
    (r : List Char) (ha : ∀ x ∈ a, p x = true) (hy : p y = false) :
    (a ++ y :: r).takeWhile p = a ∧ (a ++ y :: r).dropWhile p = y :: r := by
  induction a with
  | nil =>
    refine ⟨?_, ?_⟩ <;> simp [List.takeWhile_cons, List.dropWhile_cons, hy]
  | cons z a ih =>
    have hz : p z = true := ha z (by simp)
    have ih' := ih fun x hx => ha x (by simp [hx])
    refine ⟨?_, ?_⟩
    · simp [List.takeWhile_cons, hz, ih'.1]
    · simp [List.dropWhile_cons, hz, ih'.2]

theorem validateEmail_iff (email : String) :
    validateEmail email = true ↔ emailPattern email := by
  constructor
  · intro h
    simp only [validateEmail] at h
    split at h
    case h_2 => exact absurd h (by simp)
    case h_1 rest heq =>
      simp only [Bool.and_eq_true, Bool.not_eq_true', List.all_eq_true] at h
      obtain ⟨⟨⟨hne, hall⟩, hrall⟩, htail⟩ := h
      obtain ⟨b, c, hbc, hb, hc⟩ := (tailMatch_iff rest).mp htail
      refine ⟨email.data.takeWhile (fun c => c != '@'), b, c, ?_, ?_, hb, hc, ?_, ?_, ?_⟩
      · rw [← hbc, ← heq, List.takeWhile_append_dropWhile]
      · intro h0
        rw [h0] at hne
        simp at hne
      · exact hall
      · intro ch hch
        exact hrall ch (hbc ▸ List.mem_append_left _ hch)
      · intro ch hch
        exact hrall ch (hbc ▸ List.mem_append_right _ (List.mem_cons_of_mem _ hch))
  · rintro ⟨a, b, c, hd, ha, hb, hc, haall, hball, hcall⟩
    have hsplit := takeWhile_append_cons (p := fun c => c != '@') a '@' (b ++ '.' :: c)
      (fun x hx => isEmailChar_ne_at (haall x hx)) (by simp)
    simp only [validateEmail, hd, hsplit.1, hsplit.2]
    simp only [Bool.and_eq_true, Bool.not_eq_true', List.all_eq_true]
    refine ⟨⟨⟨?_, haall⟩, ?_⟩, ?_⟩
    · cases a with
      | nil => exact absurd rfl ha
      | cons z a => simp
    · intro ch hch
      rcases List.mem_append.mp hch with hch | hch
      · exact hball ch hch
      · rcases List.mem_cons.mp hch with rfl | hch
        · decide
        · exact hcall ch hch
    · exact (tailMatch_iff _).mpr ⟨b, c, rfl, hb, hc⟩

theorem emailPattern_at_mem {email : String} (h : emailPattern email) :
    '@' ∈ email.data := by
  rcases h with ⟨a, b, c, hd, -, -, -, -, -, -⟩
  rw [hd]
  exact List.mem_append_right _ (List.mem_cons_self _ _)

theorem emailPattern_dot_mem {email : String} (h : emailPattern email) :
    '.' ∈ email.data := by
  rcases h with ⟨a, b, c, hd, -, -, -, -, -, -⟩
  rw [hd]
  exact List.mem_append_right _
    (List.mem_cons_of_mem _ (List.mem_append_right _ (List.mem_cons_self _ _)))

theorem emailPattern_not_ws {email : String} (h : emailPattern email) :
    ∀ ch ∈ email.data, ch.isWhitespace = false := by
  rcases h with ⟨a, b, c, hd, -, -, -, haall, hball, hcall⟩
  intro ch hch
  rw [hd] at hch
  rcases List.mem_append.mp hch with hch | hch
  · exact isEmailChar_not_ws (haall ch hch)
  · rcases List.mem_cons.mp hch with rfl | hch
    · decide
    · rcases List.mem_append.mp hch with hch | hch
      · exact isEmailChar_not_ws (hball ch hch)
      · rcases List.mem_cons.mp hch with rfl | hch
        · decide
        · exact isEmailChar_not_ws (hcall ch hch)

theorem jsTrim_eq_empty_ws {s : String} (h : jsTrim s = "") :
    ∀ c ∈ s.data, isWs c = true := by
  have hl : ((s.data.dropWhile isWs).reverse.dropWhile isWs).reverse = [] := by
    have := congrArg String.data h
    simpa [jsTrim] using this
  rw [List.reverse_eq_nil_iff, List.dropWhile_eq_nil_iff] at hl
  intro c hc
  have hc' : c ∈ s.data.takeWhile isWs ++ s.data.dropWhile isWs := by
    rw [List.takeWhile_append_dropWhile]; exact hc
  rcases List.mem_append.mp hc' with h1 | h2
  · exact List.mem_takeWhile_imp h1
  · exact hl c (List.mem_reverse.mpr h2)

theorem jsTrim_ne_empty {s : String} {c : Char} (hc : c ∈ s.data)
    (hw : c.isWhitespace = false) : jsTrim s ≠ "" := by
  intro h
  have := jsTrim_eq_empty_ws h c hc
  simp [isWs, hw] at this

theorem emailError_eq (email : String) (h : jsTrim email ≠ "") :
    emailError email =
      if validateEmail email then none
      else some "Please enter a valid email address" := by
  unfold emailError
  rw [if_neg h]
  by_cases hv : validateEmail email = true
  · simp [hv]
  · rw [Bool.not_eq_true] at hv
    simp [hv]

theorem emailError_eq_none_iff (email : String) :
    emailError email = none ↔ (jsTrim email ≠ "" ∧ emailPattern email) := by
  by_cases h0 : jsTrim email = ""
  · simp [emailError, h0]
  · rw [emailError_eq email h0, ← validateEmail_iff]
    by_cases hv : validateEmail email = true
    · simp [hv, h0]
    · rw [Bool.not_eq_true] at hv
      simp [hv]

theorem nameError_eq_none_iff (name : String) :
    nameError name = none ↔ 2 ≤ (jsTrim name).length := by
  unfold nameError
  by_cases h0 : jsTrim name = ""
  · have hlen : (jsTrim name).length = 0 := by rw [h0]; rfl
    simp [h0, hlen]
  · rw [if_neg h0]
    by_cases h1 : (jsTrim name).length < 2
    · simp [h1]
    · simp [h1]
      omega

theorem courseError_eq_none_iff (course : String) :
    courseError course = none ↔ course ≠ "" := by
  unfold courseError
  by_cases h0 : course = "" <;> simp [h0]

/-- Claim C5: the email field is flagged "required" exactly when it is empty
after trimming; otherwise it is flagged "invalid format" exactly when the raw
value fails the `local@domain.tld` pattern (non-empty local part over
`[^\s@]`, an `@`, a non-empty domain, a literal dot, a non-empty TLD
segment).  In particular every non-blank string lacking an `@` or lacking a
dot is flagged invalid. -/
theorem email_validation_spec (email : String) :
    (jsTrim email = "" → emailError email = some "Email is required") ∧
    (jsTrim email ≠ "" →
      ((emailError email = some "Please enter a valid email address" ↔
          ¬ emailPattern email) ∧
       (emailError email = none ↔ emailPattern email))) ∧
    (jsTrim email ≠ "" → '@' ∉ email.data →
      emailError email = some "Please enter a valid email address") ∧
    (jsTrim email ≠ "" → '.' ∉ email.data →
      emailError email = some "Please enter a valid email address") := by
  have hmain : jsTrim email ≠ "" →
      ((emailError email = some "Please enter a valid email address" ↔
          ¬ emailPattern email) ∧
       (emailError email = none ↔ emailPattern email)) := by
    intro h
    have he := emailError_eq email h
    cases hv : validateEmail email with
    | false =>
      rw [hv] at he
      simp only [if_neg (by simp : ¬ (false = true))] at he
      have hnp : ¬ emailPattern email := fun hp => by
        rw [(validateEmail_iff email).mpr hp] at hv
        cases hv
      constructor
      · simp [he, hnp]
      · simp [he, hnp]
    | true =>
      rw [hv] at he
      simp only [if_pos rfl] at he
      have hp : emailPattern email := (validateEmail_iff email).mp hv
      constructor
      · simp [he, hp]
      · simp [he, hp]
  refine ⟨?_, hmain, ?_, ?_⟩
  · intro h; simp [emailError, h]
  · intro h hat
    exact (hmain h).1.mpr fun hp => hat (emailPattern_at_mem hp)
  · intro h hdot
    exact (hmain h).1.mpr fun hp => hdot (emailPattern_dot_mem hp)

theorem email_validation_spec_witness :
    emailError "a@b.com" = none ∧
    emailError "ab.com" = some "Please enter a valid email address" := by
  constructor
  · exact ((email_validation_spec "a@b.com").2.1 (by decide)).2.mpr
      ⟨['a'], ['b'], ['c', 'o', 'm'], by decide, by decide, by decide, by decide,
        by decide, by decide, by decide⟩
  · exact (email_validation_spec "ab.com").2.2.1 (by decide) (by decide)

/-- Claim C6: the name field is flagged "required" when empty after trimming
and "too short" when the trimmed length is below 2 (some name error is
present exactly when the trimmed length is below 2); the course field is
flagged exactly when it is the empty string; and the error set is empty if
and only if all three field checks pass. -/
theorem validateForm_fields_spec (fd : FormData) :
    (jsTrim fd.name = "" → (validateForm fd).name = some "Name is required") ∧
    (jsTrim fd.name ≠ "" → (jsTrim fd.name).length < 2 →
      (validateForm fd).name = some "Name must be at least 2 characters") ∧
    ((jsTrim fd.name).length < 2 → ((validateForm fd).name).isSome = true) ∧
    (2 ≤ (jsTrim fd.name).length → (validateForm fd).name = none) ∧
    (fd.enrolledCourse = "" →
      (validateForm fd).enrolledCourse = some "Please select a course") ∧
    (fd.enrolledCourse ≠ "" → (validateForm fd).enrolledCourse = none) ∧
    (isValid (validateForm fd) = true ↔
      (2 ≤ (jsTrim fd.name).length ∧
       (jsTrim fd.email ≠ "" ∧ emailPattern fd.email) ∧
       fd.enrolledCourse ≠ "")) := by
  refine ⟨?_, ?_, ?_, ?_, ?_, ?_, ?_⟩
  · intro h; simp [validateForm, nameError, h]
  · intro h0 h1; simp [validateForm, nameError, if_neg h0, h1]
  · intro h1
    by_cases h0 : jsTrim fd.name = ""
    · simp [validateForm, nameError, h0]
    · simp [validateForm, nameError, if_neg h0, h1]
  · intro h2
    have := (nameError_eq_none_iff fd.name).mpr h2
    simpa [validateForm] using this
  · intro h; simp [validateForm, courseError, h]
  · intro h
    have := (courseError_eq_none_iff fd.enrolledCourse).mpr h
    simpa [validateForm] using this
  · rw [show isValid (validateForm fd) =
        ((nameError fd.name).isNone && (emailError fd.email).isNone &&
          (courseError fd.enrolledCourse).isNone) from rfl]
    simp only [Bool.and_eq_true, Option.isNone_iff_eq_none]
    rw [nameError_eq_none_iff, emailError_eq_none_iff, courseError_eq_none_iff]
    constructor
    · rintro ⟨⟨h1, h2⟩, h3⟩; exact ⟨h1, h2, h3⟩
    · rintro ⟨h1, h2, h3⟩; exact ⟨⟨h1, h2⟩, h3⟩

theorem validateForm_fields_spec_witness :
    (validateForm ⟨"A", "a@b.com", "HTML Basics", ""⟩).name =
      some "Name must be at least 2 characters" :=
  (validateForm_fields_spec _).2.1 (by decide) (by decide)

/-- Claim C4: `filteredStudents` returns the whole collection for a blank
(empty or whitespace-only) term; for a non-blank term a record is in the
result exactly when it is in the collection and its lower-cased name, email
or enrolled course contains the lower-cased term; and the result is always a
sublist of the collection, so insertion order is preserved and no re-sorting
happens. -/
theorem search_filter_spec (term : String) (students : List Student) :
    (jsTrim term = "" → filteredStudents term students = students) ∧
    (jsTrim term ≠ "" → ∀ s, s ∈ filteredStudents term students ↔
      s ∈ students ∧ studentMatches term s = true) ∧
    (filteredStudents term students).Sublist students := by
  refine ⟨?_, ?_, ?_⟩
  · intro h; simp [filteredStudents, h]
  · intro h s
    simp [filteredStudents, if_neg h, List.mem_filter]
  · unfold filteredStudents
    by_cases h : jsTrim term = ""
    · simp [h]
    · rw [if_neg h]
      exact List.filter_sublist _

theorem search_filter_spec_witness :
    sBob ∈ filteredStudents "bob" [sAnn, sBob] ∧
    filteredStudents " " [sAnn, sBob] = [sAnn, sBob] := by
  constructor
  · exact ((search_filter_spec "bob" [sAnn, sBob]).2.1 (by decide) sBob).mpr
      ⟨by simp, by decide⟩
  · exact (search_filter_spec " " [sAnn, sBob]).1 (by decide)

/-- Claim C1 counterexample: for a draft whose id matches no record, the
spec-modelled `updateRecord` fails with "not found", but the source's
`updateStudent` returns the unchanged collection as an ordinary success: the
two disagree on the empty collection. -/
theorem updateRecord_notFound_counterexample :
    updateRecordSpec sAnn [] = Except.error "not found" ∧
    updateStudent sAnn [] = [] ∧
    Except.ok (updateStudent sAnn []) ≠ updateRecordSpec sAnn [] := by
  refine ⟨rfl, rfl, ?_⟩
  intro h
  simp [updateStudent, updateRecordSpec] at h

/-- Claim C1, amended: if no record's id matches the draft's id,
`updateStudent` leaves the collection unchanged — but silently: it is a
total function into the new collection and reports no "not found" error. -/
theorem updateRecord_missing_id_noop (u : Student) (l : List Student)
    (h : ∀ s ∈ l, s.id ≠ u.id) : updateStudent u l = l := by
  revert h
  induction l with
  | nil => intro _; rfl
  | cons x xs ih =>
    intro h
    have h1 : updateStudent u (x :: xs) =
        (if x.id = u.id then u else x) :: updateStudent u xs := rfl
    rw [h1, if_neg (h x (List.mem_cons_self x xs)),
      ih fun s hs => h s (List.mem_cons_of_mem _ hs)]

theorem updateRecord_missing_id_noop_witness :
    updateStudent sAnn [sBob] = [sBob] :=
  updateRecord_missing_id_noop sAnn [sBob] (by decide)

/-- Claim C3 counterexample: updating a record whose stored enrollment date is
the empty string does not preserve it: the JavaScript `||` fallback replaces
the falsy empty string with the current timestamp. -/
theorem updateRecord_date_counterexample :
    (buildStudentData (some sBlankDate) ⟨"Cay", "cay@x.co", "HTML Basics", "p3"⟩
        "2025-06-01T00:00:00.000Z" "f1" "f2").dateEnrolled ≠
      sBlankDate.dateEnrolled := by decide

/-- Claim C3, amended: provided the original record's enrollment date is
non-empty (true of every record the app itself creates), the record built by
an update submit keeps that date unchanged. -/
theorem updateRecord_preserves_nonempty_date (s : Student) (fd : FormData)
    (now freshId freshImage : String) (h : s.dateEnrolled ≠ "") :
    (buildStudentData (some s) fd now freshId freshImage).dateEnrolled =
      s.dateEnrolled := by
  simp [buildStudentData, jsOr, h]

theorem updateRecord_preserves_nonempty_date_witness :
    (buildStudentData (some sAnn) ⟨"Ann", "ann@example.com", "HTML Basics", "p1"⟩
        "2025-06-01T00:00:00.000Z" "f1" "f2").dateEnrolled = sAnn.dateEnrolled :=
  updateRecord_preserves_nonempty_date sAnn _ _ _ _ (by decide)

/-- Claim C9: when validation fails, the add pipeline returns exactly the
computed error set and mutates nothing: the in-memory collection and the
persisted blob are those from before the call. -/
theorem add_invalid_draft_no_mutation (fd : FormData)
    (now freshId freshImage : String) (students : List Student)
    (blob : Option String) (h : isValid (validateForm fd) = false) :
    handleSubmitModel none fd now freshId freshImage students blob =
      ⟨validateForm fd, students, blob⟩ := by
  simp [handleSubmitModel, h]

theorem add_invalid_draft_no_mutation_witness :
    handleSubmitModel none ⟨"", "a@b.com", "HTML Basics", ""⟩ "NOW" "F1" "F2"
        [] none =
      ⟨validateForm ⟨"", "a@b.com", "HTML Basics", ""⟩, [], none⟩ :=
  add_invalid_draft_no_mutation _ _ _ _ _ _ (by decide)

/-- Claim C10: the format check runs on the raw, un-trimmed email: any value
that is a `validateEmail`-accepted address surrounded by (at least some)
whitespace is flagged "invalid format"; and yet the commit path would have
stored the trimmed, lower-cased value. -/
theorem email_checked_untrimmed (pre core post : String)
    (hpre : ∀ c ∈ pre.data, c.isWhitespace = true)
    (hpost : ∀ c ∈ post.data, c.isWhitespace = true)
    (hne : pre ≠ "" ∨ post ≠ "")
    (hcore : validateEmail core = true) :
    emailError (pre ++ core ++ post) = some "Please enter a valid email address" ∧
    (∀ fd now freshId freshImage,
      (buildStudentData none fd now freshId freshImage).email =
        jsToLower (jsTrim fd.email)) := by
  constructor
  · have hp : emailPattern core := (validateEmail_iff core).mp hcore
    have hdata : (pre ++ core ++ post).data = pre.data ++ core.data ++ post.data := by
      simp
    have hat : '@' ∈ (pre ++ core ++ post).data := by
      rw [hdata]
      exact List.mem_append_left _ (List.mem_append_right _ (emailPattern_at_mem hp))
    have htrim : jsTrim (pre ++ core ++ post) ≠ "" :=
      jsTrim_ne_empty hat (by decide)
    have hws : ∃ c ∈ (pre ++ core ++ post).data, c.isWhitespace = true := by
      rcases hne with h | h
      · obtain ⟨c, hc⟩ := List.exists_mem_of_ne_nil pre.data
          fun hnil => h ((string_data_nil_iff pre).mp hnil)
        exact ⟨c, by rw [hdata]; exact List.mem_append_left _ (List.mem_append_left _ hc),
          hpre c hc⟩
      · obtain ⟨c, hc⟩ := List.exists_mem_of_ne_nil post.data
          fun hnil => h ((string_data_nil_iff post).mp hnil)
        exact ⟨c, by rw [hdata]; exact List.mem_append_right _ hc, hpost c hc⟩
    have hv : validateEmail (pre ++ core ++ post) = false := by
      cases hv : validateEmail (pre ++ core ++ post) with
      | false => rfl
      | true =>
        obtain ⟨c, hc, hcw⟩ := hws
        have hnw := emailPattern_not_ws ((validateEmail_iff _).mp hv) c hc
        rw [hnw] at hcw
        cases hcw
    rw [emailError_eq _ htrim, hv]
    simp
  · intro fd now freshId freshImage
    rfl

theorem email_checked_untrimmed_witness :
    emailError (" " ++ "a@b.com" ++ "") =
      some "Please enter a valid email address" :=
  (email_checked_untrimmed " " "a@b.com" "" (by decide) (by decide)
    (Or.inl (by decide)) (by decide)).1

/-- Claim C7 counterexample: the blob holding the two-character JSON text
of an empty object deserializes successfully, and the load path returns
that object unvalidated — neither a sequence of records nor the empty
sequence — so "load returns a sequence of records, with the empty sequence
on deserialization failure" is false as a description of the source. -/
theorem load_garbage_counterexample :
    jsonParse "\x7b\x7d" = some (JSValue.obj []) ∧
    getStoredStudentsJS (some "\x7b\x7d") = JSValue.obj [] ∧
    isStudentArray (getStoredStudentsJS (some "\x7b\x7d")) = false ∧
    getStoredStudentsJS (some "\x7b\x7d") ≠ JSValue.arr [] := by
  refine ⟨rfl, rfl, rfl, ?_⟩
  intro h
  have h' : JSValue.obj [] = JSValue.arr [] := h
  exact JSValue.noConfusion h'

/-- Claim C7, amended: the load path never raises — an absent blob and a
blob whose contents fail to parse as JSON (the only exception the source
catches) both yield the empty sequence; but a blob that parses as JSON is
returned unvalidated, so a wrong-shaped valid-JSON blob yields that value,
not a record sequence. -/
theorem load_never_raises_json :
    getStoredStudentsJS none = JSValue.arr [] ∧
    (∀ s, jsonParse s = none → getStoredStudentsJS (some s) = JSValue.arr []) ∧
    (∀ s v, jsonParse s = some v → getStoredStudentsJS (some s) = v) := by
  refine ⟨rfl, ?_, ?_⟩
  · intro s h; simp [getStoredStudentsJS, h]
  · intro s v h; simp [getStoredStudentsJS, h]

theorem load_never_raises_json_witness :
    getStoredStudentsJS (some "corrupt") = JSValue.arr [] :=
  load_never_raises_json.2.1 "corrupt" (by rfl)

theorem string_mk_data (s : String) : (⟨s.data⟩ : String) = s := by
  cases s
  rfl

theorem parseLit_self (p r : List Char) : parseLit p (p ++ r) = some r := by
  induction p with
  | nil => rfl
  | cons c p ih => simp [parseLit, ih]

theorem parse_escape (l tail : List Char) :
    parseStringBody (escapeChars l ++ '"' :: tail) = some (l, tail) := by
  induction l with
  | nil =>
    have h0 : escapeChars [] ++ '"' :: tail = '"' :: tail := rfl
    rw [h0, parseStringBody.eq_def]
    simp
  | cons c l ih =>
    by_cases hc : c = '"' ∨ c = '\\'
    · have h1 : escapeChars (c :: l) ++ '"' :: tail =
          '\\' :: c :: (escapeChars l ++ '"' :: tail) := by
        simp [escapeChars, hc]
      rw [h1, parseStringBody.eq_def]
      simp only []
      rw [if_pos trivial, if_pos hc, ih,
        if_neg (show ¬('\\' : Char) = '"' by decide)]
    · push_neg at hc
      have h1 : escapeChars (c :: l) ++ '"' :: tail =
          c :: (escapeChars l ++ '"' :: tail) := by
        simp [escapeChars, hc.1, hc.2]
      rw [h1, parseStringBody.eq_def]
      simp only []
      rw [if_neg hc.1, if_neg hc.2, ih]

theorem parseJStr_quote (s : String) (tail : List Char) :
    parseJStr (quoteStr s ++ tail) = some (s, tail) := by
  have h1 : quoteStr s ++ tail = '"' :: (escapeChars s.data ++ '"' :: tail) := by
    simp [quoteStr]
  rw [h1]
  simp [parseJStr, parse_escape, string_mk_data]

set_option maxHeartbeats 1000000 in
theorem parseStudent_stringify (s : Student) (tail : List Char) :
    parseStudent (stringifyStudent s ++ tail) = some (s, tail) := by
  simp only [parseStudent, stringifyStudent, List.append_assoc, parseLit_self,
    parseJStr_quote, Option.some_bind]

theorem stringifyStudent_length (s : Student) :
    1 ≤ (stringifyStudent s).length := by
  have h6 : keyId.length = 6 := rfl
  rw [stringifyStudent]
  simp [List.length_append, h6]
  omega

theorem stringifyItems_ne_nil (s : Student) (ls : List Student) :
    stringifyItems (s :: ls) ≠ [] := by
  cases ls with
  | nil =>
    intro h
    have h1 := stringifyStudent_length s
    rw [show stringifyItems [s] = stringifyStudent s from rfl] at h
    rw [h] at h1
    simp at h1
  | cons s' ls' =>
    intro h
    rw [show stringifyItems (s :: s' :: ls') =
        stringifyStudent s ++ ',' :: stringifyItems (s' :: ls') from rfl] at h
    rcases List.append_eq_nil.mp h with ⟨-, h2⟩
    cases h2

theorem stringifyItems_length (l : List Student) :
    l.length ≤ (stringifyItems l).length + 1 := by
  induction l with
  | nil => simp
  | cons s ls ih =>
    cases ls with
    | nil => simp
    | cons s' ls' =>
      rw [show stringifyItems (s :: s' :: ls') =
          stringifyStudent s ++ ',' :: stringifyItems (s' :: ls') from rfl]
      simp only [List.length_cons, List.length_append] at ih ⊢
      omega

theorem parseItems_stringify :
    ∀ l : List Student, l ≠ [] → ∀ (fuel : Nat) (tail : List Char),
      l.length ≤ fuel →
      parseItems fuel (stringifyItems l ++ ']' :: tail) = some (l, tail) := by
  intro l
  induction l with
  | nil => intro h; exact absurd rfl h
  | cons s ls ih =>
    intro _ fuel tail hf
    cases ls with
    | nil =>
      cases fuel with
      | zero =>
        exact absurd hf (by simp only [List.length_cons, List.length_nil]; omega)
      | succ f =>
        rw [show stringifyItems [s] = stringifyStudent s from rfl]
        simp [parseItems, parseStudent_stringify]
    | cons s' ls' =>
      cases fuel with
      | zero =>
        exact absurd hf (by simp only [List.length_cons]; omega)
      | succ f =>
        rw [show stringifyItems (s :: s' :: ls') =
            stringifyStudent s ++ ',' :: stringifyItems (s' :: ls') from rfl]
        have hf' : (s' :: ls').length ≤ f := by
          simp only [List.length_cons] at hf ⊢
          omega
        have hrec := ih (by simp) f tail hf'
        simp [parseItems, List.append_assoc, parseStudent_stringify, hrec]

/-- Claim C8: saving any collection and immediately loading reproduces it
field-for-field (every field, the ISO-8601 date string included, passes
through the serializer and back unchanged). -/
theorem save_load_roundtrip (records : List Student) (blob : Option String) :
    getStoredStudents (saveStudents records blob) = records := by
  have hparse : parseStudents (stringifyStudents records) = some records := by
    cases records with
    | nil => rfl
    | cons s ls =>
      have h2 : stringifyItems (s :: ls) ++ [']'] ≠ [']'] := by
        intro h
        have hl := congrArg List.length h
        simp only [List.length_append, List.length_cons, List.length_nil] at hl
        exact stringifyItems_ne_nil s ls (List.eq_nil_of_length_eq_zero (by omega))
      have h3 : parseItems (stringifyItems (s :: ls) ++ [']']).length
          (stringifyItems (s :: ls) ++ [']']) = some (s :: ls, []) := by
        have hle := stringifyItems_length (s :: ls)
        have hlen : (s :: ls).length ≤ (stringifyItems (s :: ls) ++ [']']).length := by
          simp only [List.length_append, List.length_cons, List.length_nil] at hle ⊢
          omega
        exact parseItems_stringify (s :: ls) (by simp) _ [] hlen
      rw [show parseStudents (stringifyStudents (s :: ls)) =
          (if stringifyItems (s :: ls) ++ [']'] = [']'] then some []
           else (parseItems (stringifyItems (s :: ls) ++ [']']).length
              (stringifyItems (s :: ls) ++ [']'])).bind fun (ss, r) =>
             if r = [] then some ss else none) from rfl]
      rw [if_neg h2, h3]
      rfl
  simp [getStoredStudents, saveStudents, hparse]

theorem course_empty_isValid_false (fd : FormData)
    (h : fd.enrolledCourse = "") : isValid (validateForm fd) = false := by
  simp [isValid, validateForm, courseError, h]

theorem reach_course_gate {σ : AppState} (h : Reach σ) :
    (σ.coursesState = CoursesState.loading ∨
      (∃ msg, σ.coursesState = CoursesState.failed msg)) →
    σ.showForm = true → σ.editing = none → σ.form.enrolledCourse = "" := by
  induction h with
  | base stored =>
    intro _ hsf _
    simp [initState] at hsf
  | @step σ σ' hreach hstep ih =>
    cases hstep with
    | fetchOk h1 =>
      intro hcs _ _
      rcases hcs with hc | ⟨msg, hc⟩ <;> exact absurd hc (by simp)
    | fetchFail msg h1 =>
      intro _ hsf hed
      exact ih (Or.inl h1) hsf hed
    | retryClick msg h1 =>
      intro _ hsf hed
      exact ih (Or.inr ⟨msg, h1⟩) hsf hed
    | clickAdd h1 =>
      intro _ _ _
      rfl
    | clickEdit s h1 =>
      intro _ _ hed
      exact absurd hed (by simp)
    | setName v h1 =>
      intro hcs hsf hed
      exact ih hcs hsf hed
    | setEmail v h1 =>
      intro hcs hsf hed
      exact ih hcs hsf hed
    | setImage v h1 =>
      intro hcs hsf hed
      exact ih hcs hsf hed
    | setCourse v h1 h2 =>
      intro hcs _ _
      rcases h2 with h2 | h2
      · exact h2
      · rcases hcs with hc | ⟨msg, hc⟩
        · rw [show ({ σ with form := { σ.form with enrolledCourse := v } } :
              AppState).coursesState = σ.coursesState from rfl] at hc
          rw [hc] at h2
          simp [courseNames] at h2
        · rw [show ({ σ with form := { σ.form with enrolledCourse := v } } :
              AppState).coursesState = σ.coursesState from rfl] at hc
          rw [hc] at h2
          simp [courseNames] at h2
    | cancel h1 =>
      intro _ hsf _
      exact absurd hsf (by simp)
    | submit now freshId freshImage h1 =>
      intro hcs hsf hed
      by_cases hv : isValid (validateForm σ.form) = true
      · simp [submitStep, hv] at hsf
      · rw [Bool.not_eq_true] at hv
        have hss : submitStep σ now freshId freshImage = σ := by
          simp [submitStep, hv]
        rw [hss] at hcs hsf hed ⊢
        exact ih hcs hsf hed

/-- Claim C2: in every reachable application state whose course directory is
in the `failed` state, no step grows the student collection: the Add button
is disabled, and an already-open add form necessarily has an empty course
selection (the directory offered no choices while loading or failed), so its
submit fails validation.  Edits replace in place and never add. -/
theorem failed_directory_blocks_add {σ σ' : AppState} {msg : String}
    (hσ : Reach σ) (hf : σ.coursesState = CoursesState.failed msg)
    (hstep : Step σ σ') : σ'.students.length = σ.students.length := by
  cases hstep with
  | fetchOk h1 => rfl
  | fetchFail m h1 => rfl
  | retryClick m h1 => rfl
  | clickAdd h1 => rfl
  | clickEdit s h1 => rfl
  | setName v h1 => rfl
  | setEmail v h1 => rfl
  | setImage v h1 => rfl
  | setCourse v h1 h2 => rfl
  | cancel h1 => rfl
  | submit now freshId freshImage h1 =>
    by_cases hv : isValid (validateForm σ.form) = true
    · cases hed : σ.editing with
      | none =>
        have hinv := reach_course_gate hσ (Or.inr ⟨msg, hf⟩) h1 hed
        have hbad := course_empty_isValid_false σ.form hinv
        rw [hbad] at hv
        exact absurd hv (by simp)
      | some s =>
        simp [submitStep, hv, hed, updateStudent]
    · rw [Bool.not_eq_true] at hv
      simp [submitStep, hv]

theorem failed_directory_blocks_add_witness :
    (submitStep ⟨[], CoursesState.failed "boom", true, none, initForm⟩
        "NOW" "F1" "F2").students.length = 0 := by
  have h0 : Reach (initState []) := Reach.base []
  have h1 : Reach ⟨[], CoursesState.loading, true, none, initForm⟩ :=
    Reach.step h0 (Step.clickAdd (initState []) fun msg h => nomatch h)
  have h2 : Reach ⟨[], CoursesState.failed "boom", true, none, initForm⟩ :=
    Reach.step h1 (Step.fetchFail _ "boom" rfl)
  have h3 := failed_directory_blocks_add h2 rfl
    (Step.submit _ "NOW" "F1" "F2" rfl)
  simpa using h3
